import Mathlib

/-!
Verification of the directory-tree generator (`tree_gen.py`).

The development shallowly embeds the core of the program:

* a filesystem snapshot is an inductive tree `FS`; a directory carries
  `Option (List FS)` where `none` models a listing that raises
  `PermissionError` (an unreadable directory) and `some cs` a successful
  `iterdir` returning the children `cs`;
* `Config` mirrors the configuration dictionary consumed by
  `TreeGenerator.__init__`, and `DEFAULT_CONFIG` transcribes the
  `DEFAULT_CONFIG` class attribute;
* `should_exclude` / `should_exclude_by_path` embed the exclusion rules;
* `build_tree` / `build_items` embed `TreeGenerator._build_tree` (the
  `for` loop over the sorted, filtered children is `build_items`);
* `generate_tree_lines` / `generate_tree` embed
  `TreeGenerator.generate_tree`; a missing root is modelled by passing
  `none` for the root snapshot.

Python exceptions are modelled with `Except PyErr`: `ValueError` for the
missing-root check, `PermissionError` for a failed listing, and
`NotADirectoryError` for `iterdir` on a plain file.  `sorted(...)` with the
key `(not p.is_dir(), p.name.lower())` is a stable sort by that key;
it is embedded as `List.insertionSort` (stable) over the relation `keyLE`
that compares those keys lexicographically.  `str.lower` is embedded as
`pyLower` (ASCII lowercasing, matching Python on ASCII names),
`str.endswith` as `pyEndsWith`, and string comparison as the code-point
lexicographic order `charlistLE`, which is how Python compares strings.
All auxiliary string functions are defined structurally in this file so
that every concrete run evaluates inside the kernel.
-/

namespace TreeGen

/-- A filesystem snapshot entry: a plain file, or a directory whose listing
either succeeds with children (`some cs`) or raises `PermissionError`
(`none`). -/
inductive FS where
  | file (nm : String) : FS
  | dir (nm : String) (listing : Option (List FS)) : FS

/-- Bare name of an entry (`path.name`). -/
def FS.name : FS → String
  | .file n => n
  | .dir n _ => n

/-- Whether the entry is a directory (`path.is_dir()`). -/
def FS.isDir : FS → Bool
  | .file _ => false
  | .dir _ _ => true

/-- The Python exceptions that appear in the core: the `ValueError` raised
for a missing root, `PermissionError` from listing an unreadable directory,
and `NotADirectoryError` from `iterdir` on a plain file. -/
inductive PyErr where
  | notFound
  | permissionError
  | notADirectoryError
deriving DecidableEq

/-- The configuration consumed by `TreeGenerator.__init__` (the merged
dictionary): the exclusion lists, the optional extension allow-list
(`None` = include all) and the optional maximum depth (`None` =
unlimited).  `max_depth` is an `Option Int` because the CLI parses an
arbitrary integer. -/
structure Config where
  exclude_dirs : List String
  exclude_files : List String
  exclude_patterns : List String
  exclude_path_patterns : List String
  include_extensions : Option (List String)
  max_depth : Option Int

/-- Transcription of `TreeGenerator.DEFAULT_CONFIG`. -/
def DEFAULT_CONFIG : Config where
  exclude_dirs :=
    ["node_modules", "vendor",
     "dist", "build", ".expo", "android/app/build",
     "android/.gradle", "android/.kotlin", "android/app/.cxx",
     "ios/build", "ios/Pods",
     "__pycache__", ".pytest_cache", ".mypy_cache",
     ".next", "coverage", "temp-apk",
     ".git", ".vscode", ".idea", ".DS_Store",
     "venv", "env",
     ".gradle", ".cxx", "build",
     ".expo-shared", "web-build"]
  exclude_files :=
    [".DS_Store", "Thumbs.db", "desktop.ini",
     "package-lock.json", "yarn.lock", "pnpm-lock.yaml",
     ".env", ".env.local", ".env.production",
     "google-services.json", "GoogleService-Info.plist",
     ".gitignore", ".eslintcache",
     "debug.keystore",
     "gradle-wrapper.jar", "gradlew", "gradlew.bat"]
  exclude_patterns :=
    [".pyc", ".pyo", ".class", ".o",
     ".log",
     ".zip", ".tar", ".gz", ".apk", ".ipa", ".aab",
     ".bin", ".lock", ".probe",
     ".so", ".dex"]
  include_extensions := none
  max_depth := none
  exclude_path_patterns :=
    ["android/app/.cxx",
     "android/.gradle",
     "android/app/build",
     ".expo/web/cache",
     "android/gradle/wrapper"]

/-- Whether `pat` is a prefix of `l` (character lists). -/
def charsStart : List Char → List Char → Bool
  | [], _ => true
  | _ :: _, [] => false
  | a :: as, b :: bs => a == b && charsStart as bs

/-- Whether `pat` occurs contiguously anywhere inside `l`; embeds the
Python substring test `pat in s`. -/
def charsHasSub (pat : List Char) : List Char → Bool
  | [] => charsStart pat []
  | c :: t => charsStart pat (c :: t) || charsHasSub pat t

/-- Python `pat in s` on strings. -/
def strHasSub (pat s : String) : Bool := charsHasSub pat.data s.data

/-- Python `s.endswith(pat)`: a raw string-suffix test. -/
def pyEndsWith (s pat : String) : Bool := charsStart pat.data.reverse s.data.reverse

/-- Python `s.lower()` (ASCII lowercasing; Python names compared here are
ASCII). -/
def pyLower (s : String) : String := String.mk (s.data.map Char.toLower)

/-- Code-point lexicographic order on character lists: exactly how Python
compares two strings. -/
def charlistLE : List Char → List Char → Bool
  | [], _ => true
  | _ :: _, [] => false
  | a :: as, b :: bs => if a == b then charlistLE as bs else decide (a < b)

/-- Python `a <= b` on strings. -/
def strLeB (a b : String) : Bool := charlistLE a.data b.data

/-- The normalized root-relative path string of an entry, given its
root-relative components: `str(path.relative_to(root)).replace(chr(92), slash)`
joins the components with forward slashes. -/
def relPathString (rel : List String) : String := String.intercalate "/" rel

/-- Embeds `TreeGenerator._should_exclude_by_path`: some configured
pattern occurs as a substring of the normalized root-relative path.
During traversal every visited entry lies below the root, so the
`ValueError` branch of the source never fires; the embedding receives the
relative components directly. -/
def should_exclude_by_path (cfg : Config) (rel : List String) : Bool :=
  cfg.exclude_path_patterns.any (fun pat => strHasSub pat (relPathString rel))

/-- Python `pathlib.PurePath.suffix`: the final dot-suffix of the name;
empty when the only dot is leading or trailing or there is none. -/
def pySuffix (nm : String) : String :=
  let cs := nm.data
  let dots := (cs.enum.filter (fun p => p.2 == '.')).map (fun p => p.1)
  match dots.getLast? with
  | none => ""
  | some i => if 0 < i && i + 1 < cs.length then String.mk (cs.drop i) else ""

/-- Python truthiness of the allow-list value: `None` and the empty list
are falsy. -/
def optListTruthy : Option (List String) → Bool
  | none => false
  | some l => !l.isEmpty

/-- Embeds `TreeGenerator._should_exclude` for entries visited during
traversal (the `root` argument is always supplied there, so the
path-pattern check always runs).  `rel` is the entry's root-relative
path in components. -/
def should_exclude (cfg : Config) (p : FS) (rel : List String) : Bool :=
  if should_exclude_by_path cfg rel then true
  else if p.isDir then decide (p.name ∈ cfg.exclude_dirs)
  else if decide (p.name ∈ cfg.exclude_files) then true
  else if cfg.exclude_patterns.any (fun pat => pyEndsWith p.name pat) then true
  else if optListTruthy cfg.include_extensions then
    !decide (pySuffix p.name ∈ cfg.include_extensions.getD [])
  else false

/-- First component of the Python sort key `(not p.is_dir(), ...)`:
`0` for directories, `1` for files. -/
def sortKey1 (e : FS) : Nat := if e.isDir then 0 else 1

theorem charlistLE_total (as bs : List Char) :
    charlistLE as bs = true ∨ charlistLE bs as = true := by
  induction as generalizing bs with
  | nil => exact Or.inl rfl
  | cons a t ih =>
    cases bs with
    | nil => exact Or.inr rfl
    | cons b u =>
      by_cases h : a = b
      · subst h
        simpa [charlistLE] using ih u
      · have hab : (a == b) = false := by simp [h]
        have hba : (b == a) = false := by simp [Ne.symm h]
        rcases lt_or_gt_of_ne h with hlt | hgt
        · exact Or.inl (by simp [charlistLE, hab, hlt])
        · exact Or.inr (by simp [charlistLE, hba, hgt])

theorem charlistLE_trans {as bs cs : List Char} (h1 : charlistLE as bs = true)
    (h2 : charlistLE bs cs = true) : charlistLE as cs = true := by
  induction as generalizing bs cs with
  | nil => rfl
  | cons a t ih =>
    cases bs with
    | nil => simp [charlistLE] at h1
    | cons b u =>
      cases cs with
      | nil => simp [charlistLE] at h2
      | cons c v =>
        by_cases hab : a = b <;> by_cases hbc : b = c
        · subst hab; subst hbc
          simp [charlistLE] at h1 h2 ⊢
          exact ih h1 h2
        · subst hab
          simp [charlistLE, hbc] at h2 ⊢
          exact h2
        · subst hbc
          simp [charlistLE, hab] at h1 ⊢
          exact h1
        · simp [charlistLE, hab, hbc] at h1 h2
          have hac : a < c := lt_trans h1 h2
          simp [charlistLE, ne_of_lt hac, hac]

/-- The total preorder used by `sorted(path.iterdir(), key=...)`:
lexicographic comparison of `(not is_dir, name.lower())`. -/
def keyLE (a b : FS) : Prop :=
  sortKey1 a < sortKey1 b ∨
    (sortKey1 a = sortKey1 b ∧ strLeB (pyLower a.name) (pyLower b.name) = true)

instance : DecidableRel keyLE := fun a b => by unfold keyLE; infer_instance

instance : IsTotal FS keyLE := by
  constructor
  intro a b
  rcases Nat.lt_trichotomy (sortKey1 a) (sortKey1 b) with h | h | h
  · exact Or.inl (Or.inl h)
  · rcases charlistLE_total (pyLower a.name).data (pyLower b.name).data with h2 | h2
    · exact Or.inl (Or.inr ⟨h, h2⟩)
    · exact Or.inr (Or.inr ⟨h.symm, h2⟩)
  · exact Or.inr (Or.inl h)

instance : IsTrans FS keyLE := by
  constructor
  intro a b c hab hbc
  rcases hab with h | ⟨he, hs⟩ <;> rcases hbc with h2 | ⟨he2, hs2⟩
  · exact Or.inl (h.trans h2)
  · exact Or.inl (he2 ▸ h)
  · exact Or.inl (he ▸ h2)
  · exact Or.inr ⟨he.trans he2, charlistLE_trans hs hs2⟩

/-- Embeds `sorted(path.iterdir(), key=lambda p: (not p.is_dir(), p.name.lower()))`:
Python `sorted` is a stable sort by the key, and insertion sort is the
stable sort. -/
def childSort (cs : List FS) : List FS := List.insertionSort keyLE cs

/-- The sibling group the renderer iterates over: the children sorted and
then filtered through `_should_exclude` (`rel` is the parent's
root-relative path). -/
def keptChildren (cfg : Config) (cs : List FS) (rel : List String) : List FS :=
  (childSort cs).filter (fun c => !should_exclude cfg c (rel ++ [c.name]))

/-- The depth guard `if self.max_depth and depth >= self.max_depth`:
Python truthiness makes `None` and `0` both mean "no limit". -/
def depthStop (cfg : Config) (depth : Nat) : Bool :=
  match cfg.max_depth with
  | none => false
  | some m => (!(m == 0)) && (m ≤ (depth : Int))

/-- Result of `path.iterdir()` on a snapshot entry: a plain file raises
`NotADirectoryError`, an unreadable directory raises `PermissionError`,
a readable directory yields its children. -/
def listdir : FS → Except PyErr (List FS)
  | .file _ => .error .notADirectoryError
  | .dir _ none => .error .permissionError
  | .dir _ (some cs) => .ok cs

theorem sizeOf_childSort (cs : List FS) : sizeOf (childSort cs) = sizeOf cs :=
  (List.perm_insertionSort keyLE cs).sizeOf_eq_sizeOf

theorem sizeOf_filter_le (q : FS → Bool) (l : List FS) : sizeOf (l.filter q) ≤ sizeOf l := by
  induction l with
  | nil => simp
  | cons a t ih =>
    by_cases h : q a = true <;> simp [List.filter_cons, h] <;> omega

theorem sizeOf_keptChildren_le (cfg : Config) (cs : List FS) (rel : List String) :
    sizeOf (keptChildren cfg cs rel) ≤ sizeOf cs := by
  calc sizeOf (keptChildren cfg cs rel) ≤ sizeOf (childSort cs) := sizeOf_filter_le _ _
  _ = sizeOf cs := sizeOf_childSort cs

mutual

/-- Embeds `TreeGenerator._build_tree`.  The `try`/`except` of the source
is inlined over the snapshot: the listing of an unreadable directory
raises `PermissionError`, which the `except PermissionError: return`
clause swallows (yielding no lines); `iterdir` on a plain file raises
`NotADirectoryError`, which nothing catches.  `build_tree_try_shape`
below re-states the body in terms of `listdir` in the shape of the
source's `try` block. -/
def build_tree (cfg : Config) (node : FS) (pre : String) (rel : List String)
    (depth : Nat) : Except PyErr (List String) :=
  if depthStop cfg depth then .ok []
  else
    match node with
    | .file _ => .error .notADirectoryError
    | .dir _ none => .ok []
    | .dir _ (some cs) => build_items cfg (keptChildren cfg cs rel) pre rel depth
termination_by sizeOf node
decreasing_by
  have h1 := sizeOf_keptChildren_le cfg cs rel
  simp
  omega

/-- The `for i, item in enumerate(contents)` loop of `_build_tree`:
emit each item's line and recurse into directories, tracking whether the
item is last in its sibling group. -/
def build_items (cfg : Config) (items : List FS) (pre : String) (rel : List String)
    (depth : Nat) : Except PyErr (List String) :=
  match items with
  | [] => .ok []
  | item :: rest =>
    let isLast := rest.isEmpty
    let cur := if isLast then "└── " else "├── "
    let nxt := if isLast then "    " else "│   "
    let display := if item.isDir then item.name ++ "/" else item.name
    let line := pre ++ cur ++ display
    match (if item.isDir then build_tree cfg item (pre ++ nxt) (rel ++ [item.name]) (depth + 1)
           else .ok []) with
    | .error e => .error e
    | .ok sub =>
      match build_items cfg rest pre rel depth with
      | .error e => .error e
      | .ok more => .ok (line :: (sub ++ more))
termination_by sizeOf items
decreasing_by
  all_goals simp
  all_goals omega

end

/-- Embeds `TreeGenerator.generate_tree` up to the final join: `none`
for the root means the resolved path does not exist (`ValueError`);
otherwise the header line is followed by the recursive traversal, and
any exception escaping `_build_tree` propagates with no output. -/
def generate_tree_lines (cfg : Config) (root : Option FS) : Except PyErr (List String) :=
  match root with
  | none => .error .notFound
  | some fs =>
    match build_tree cfg fs "" [] 0 with
    | .error e => .error e
    | .ok lines => .ok ((fs.name ++ "/") :: lines)

/-- Embeds `TreeGenerator.generate_tree`: the joined text block. -/
def generate_tree (cfg : Config) (root : Option FS) : Except PyErr String :=
  match generate_tree_lines cfg root with
  | .error e => .error e
  | .ok lines => .ok (String.intercalate "\n" lines)

/-- Whether a result is the missing-root `ValueError`. -/
def isNotFoundErr {α : Type} : Except PyErr α → Bool
  | .error .notFound => true
  | _ => false

/-- The maximum depth the renderer ends up with when `main()` builds its
override dictionary from the CLI: `if args.max_depth:` skips the override
for a falsy (absent or zero) argument, leaving `DEFAULT_CONFIG`'s
unlimited depth in effect. -/
def mainMergedMaxDepth (argMaxDepth : Option Int) : Option Int :=
  match argMaxDepth with
  | none => DEFAULT_CONFIG.max_depth
  | some v => if v == 0 then DEFAULT_CONFIG.max_depth else some v

/-- Modelled from the spec, for the refinement claim about rule order: a
single exclusion step is either no decision (`none`, fall through) or a
definitive decision (`some b`). -/
def firstDecision : List (Option Bool) → Bool
  | [] => false
  | some b :: _ => b
  | none :: rest => firstDecision rest

/-- Modelled from the spec's words (section 4.1): the five exclusion
rules in their stated order.  Rule 1 (path substring) applies to files
and directories; rule 2 decides directories definitively; rules 3-5
apply to files only, rule 5 only when the allow-list is non-empty. -/
def specRuleList (cfg : Config) (e : FS) (rel : List String) : List (Option Bool) :=
  [if should_exclude_by_path cfg rel then some true else none,
   if e.isDir then some (decide (e.name ∈ cfg.exclude_dirs)) else none,
   if !e.isDir && decide (e.name ∈ cfg.exclude_files) then some true else none,
   if !e.isDir && cfg.exclude_patterns.any (fun pat => pyEndsWith e.name pat) then some true
   else none,
   if !e.isDir && optListTruthy cfg.include_extensions then
     some (!decide (pySuffix e.name ∈ cfg.include_extensions.getD []))
   else none]

/-- Modelled from the spec: the exclusion decision as "first matching
rule wins"; an entry matched by no rule is kept. -/
def excludedSpec (cfg : Config) (e : FS) (rel : List String) : Bool :=
  firstDecision (specRuleList cfg e rel)

/-- The sibling ordering the spec states: a file never precedes a
directory, and entries of the same kind are in case-insensitive
ascending name order. -/
def siblingOrdered (a b : FS) : Prop :=
  if a.isDir = b.isDir then strLeB (pyLower a.name) (pyLower b.name) = true
  else a.isDir = true ∧ b.isDir = false

mutual

/-- Modelled from the spec's words "all non-excluded entries at any depth
appear": the number of entries reachable through non-excluded parents
that survive the exclusion rules, with no depth bound.  A directory
whose listing fails contributes no descendants. -/
def visible_count (cfg : Config) (node : FS) (rel : List String) : Nat :=
  match node with
  | .file _ => 0
  | .dir _ none => 0
  | .dir _ (some cs) => visible_count_items cfg (keptChildren cfg cs rel) rel
termination_by sizeOf node
decreasing_by
  have h1 := sizeOf_keptChildren_le cfg cs rel
  simp
  omega

/-- Companion of `visible_count` over a sibling group. -/
def visible_count_items (cfg : Config) (items : List FS) (rel : List String) : Nat :=
  match items with
  | [] => 0
  | item :: rest =>
    (1 + (if item.isDir then visible_count cfg item (rel ++ [item.name]) else 0)) +
      visible_count_items cfg rest rel
termination_by sizeOf items
decreasing_by
  all_goals simp
  all_goals omega

end

mutual

/-- Structural twin of `build_tree` recursing on an explicit fuel bound;
`fuel_spec` shows it agrees with `build_tree` whenever the fuel covers
the snapshot size.  It exists so that concrete runs reduce inside the
kernel (`build_tree` itself uses well-founded recursion). -/
def build_tree_fuel : Nat → Config → FS → String → List String → Nat →
    Except PyErr (List String)
  | 0, _, _, _, _, _ => .error .notFound
  | fu + 1, cfg, node, pre, rel, depth =>
    if depthStop cfg depth then .ok []
    else
      match node with
      | .file _ => .error .notADirectoryError
      | .dir _ none => .ok []
      | .dir _ (some cs) => build_items_fuel fu cfg (keptChildren cfg cs rel) pre rel depth

/-- Structural twin of `build_items`; see `build_tree_fuel`. -/
def build_items_fuel : Nat → Config → List FS → String → List String → Nat →
    Except PyErr (List String)
  | 0, _, _, _, _, _ => .error .notFound
  | fu + 1, cfg, items, pre, rel, depth =>
    match items with
    | [] => .ok []
    | item :: rest =>
      match (if item.isDir then
              build_tree_fuel fu cfg item
                (pre ++ (if rest.isEmpty then "    " else "│   "))
                (rel ++ [item.name]) (depth + 1)
             else .ok []) with
      | .error e => .error e
      | .ok sub =>
        match build_items_fuel fu cfg rest pre rel depth with
        | .error e => .error e
        | .ok more =>
          .ok ((pre ++ (if rest.isEmpty then "└── " else "├── ") ++
            (if item.isDir then item.name ++ "/" else item.name)) :: (sub ++ more))

end

theorem build_tree_file (cfg : Config) (n pre : String) (rel : List String) (depth : Nat) :
    build_tree cfg (.file n) pre rel depth =
      if depthStop cfg depth then .ok [] else .error .notADirectoryError := by
  simp only [build_tree]

theorem build_tree_dirNone (cfg : Config) (n pre : String) (rel : List String) (depth : Nat) :
    build_tree cfg (.dir n none) pre rel depth = .ok [] := by
  simp only [build_tree]
  split <;> rfl

theorem build_tree_dirSome (cfg : Config) (n pre : String) (cs : List FS)
    (rel : List String) (depth : Nat) :
    build_tree cfg (.dir n (some cs)) pre rel depth =
      if depthStop cfg depth then .ok []
      else build_items cfg (keptChildren cfg cs rel) pre rel depth := by
  simp only [build_tree]

theorem build_items_nil (cfg : Config) (pre : String) (rel : List String) (depth : Nat) :
    build_items cfg [] pre rel depth = .ok [] := by
  simp only [build_items]

theorem build_items_cons (cfg : Config) (item : FS) (rest : List FS) (pre : String)
    (rel : List String) (depth : Nat) :
    build_items cfg (item :: rest) pre rel depth =
      match (if item.isDir then
              build_tree cfg item
                (pre ++ (if rest.isEmpty then "    " else "│   "))
                (rel ++ [item.name]) (depth + 1)
             else .ok []) with
      | .error e => .error e
      | .ok sub =>
        match build_items cfg rest pre rel depth with
        | .error e => .error e
        | .ok more =>
          .ok ((pre ++ (if rest.isEmpty then "└── " else "├── ") ++
            (if item.isDir then item.name ++ "/" else item.name)) :: (sub ++ more)) := by
  simp only [build_items]

theorem fuel_spec : ∀ fu : Nat,
    (∀ cfg node pre rel depth, sizeOf node ≤ fu →
      build_tree_fuel fu cfg node pre rel depth = build_tree cfg node pre rel depth) ∧
    (∀ cfg (items : List FS) pre rel depth, sizeOf items ≤ fu →
      build_items_fuel fu cfg items pre rel depth = build_items cfg items pre rel depth) := by
  intro fu
  induction fu with
  | zero =>
    constructor
    · intro cfg node pre rel depth h
      cases node <;> simp at h
    · intro cfg items pre rel depth h
      cases items <;> simp at h
  | succ fu ih =>
    obtain ⟨ihT, ihI⟩ := ih
    constructor
    · intro cfg node pre rel depth h
      cases node with
      | file n => rw [build_tree_file]; rfl
      | dir n l =>
        cases l with
        | none => rw [build_tree_dirNone]; simp [build_tree_fuel]
        | some cs =>
          have hc : sizeOf (keptChildren cfg cs rel) ≤ fu := by
            have := sizeOf_keptChildren_le cfg cs rel
            simp at h
            omega
          rw [build_tree_dirSome]
          simp only [build_tree_fuel]
          rw [ihI _ _ _ _ _ hc]
    · intro cfg items pre rel depth h
      cases items with
      | nil => rw [build_items_nil]; rfl
      | cons item rest =>
        have h1 : sizeOf item ≤ fu := by simp at h; omega
        have h2 : sizeOf rest ≤ fu := by simp at h; omega
        rw [build_items_cons]
        simp only [build_items_fuel]
        rw [ihI _ _ _ _ _ h2, ihT _ _ _ _ _ h1]

/-- Concrete runs of `build_tree` are computed through the structural
twin. -/
theorem build_tree_eval (cfg : Config) (node : FS) (pre : String) (rel : List String)
    (depth : Nat) :
    build_tree cfg node pre rel depth = build_tree_fuel (sizeOf node) cfg node pre rel depth :=
  ((fuel_spec (sizeOf node)).1 cfg node pre rel depth le_rfl).symm

/-- Concrete runs of `generate_tree_lines` on an existing root, computed
through the structural twin. -/
theorem generate_tree_lines_eval (cfg : Config) (fs : FS) :
    generate_tree_lines cfg (some fs) =
      match build_tree_fuel (sizeOf fs) cfg fs "" [] 0 with
      | .error e => .error e
      | .ok lines => .ok ((fs.name ++ "/") :: lines) := by
  simp only [generate_tree_lines]
  rw [build_tree_eval]

/-- Replaces every unreadable directory of a snapshot by an empty
readable one, recursively; used to state that permission-denied listings
render exactly like empty directories. -/
def normalizeFS (node : FS) : FS :=
  match node with
  | .file n => .file n
  | .dir n none => .dir n (some [])
  | .dir n (some cs) => .dir n (some (cs.attach.map (fun c => normalizeFS c.1)))
termination_by sizeOf node
decreasing_by
  have := List.sizeOf_lt_of_mem c.2
  simp
  omega

theorem visible_count_file (cfg : Config) (n : String) (rel : List String) :
    visible_count cfg (.file n) rel = 0 := by
  simp only [visible_count]

theorem visible_count_dirNone (cfg : Config) (n : String) (rel : List String) :
    visible_count cfg (.dir n none) rel = 0 := by
  simp only [visible_count]

theorem visible_count_dirSome (cfg : Config) (n : String) (cs : List FS) (rel : List String) :
    visible_count cfg (.dir n (some cs)) rel =
      visible_count_items cfg (keptChildren cfg cs rel) rel := by
  simp only [visible_count]

theorem visible_count_items_nil (cfg : Config) (rel : List String) :
    visible_count_items cfg [] rel = 0 := by
  simp only [visible_count_items]

theorem visible_count_items_cons (cfg : Config) (item : FS) (rest : List FS)
    (rel : List String) :
    visible_count_items cfg (item :: rest) rel =
      (1 + (if item.isDir then visible_count cfg item (rel ++ [item.name]) else 0)) +
        visible_count_items cfg rest rel := by
  simp only [visible_count_items]

theorem build_ok_bound : ∀ fu : Nat,
    (∀ cfg n l pre rel depth, sizeOf (FS.dir n l) ≤ fu →
      ∃ L, build_tree cfg (.dir n l) pre rel depth = .ok L) ∧
    (∀ cfg (items : List FS) pre rel depth, sizeOf items ≤ fu →
      ∃ L, build_items cfg items pre rel depth = .ok L) := by
  intro fu
  induction fu with
  | zero =>
    constructor
    · intro cfg n l pre rel depth h
      simp at h
    · intro cfg items pre rel depth h
      cases items <;> simp at h
  | succ fu ih =>
    obtain ⟨ihT, ihI⟩ := ih
    constructor
    · intro cfg n l pre rel depth h
      cases l with
      | none => exact ⟨[], build_tree_dirNone cfg n pre rel depth⟩
      | some cs =>
        rw [build_tree_dirSome]
        by_cases hg : depthStop cfg depth = true
        · exact ⟨[], by rw [if_pos hg]⟩
        · have hc : sizeOf (keptChildren cfg cs rel) ≤ fu := by
            have := sizeOf_keptChildren_le cfg cs rel
            simp at h
            omega
          obtain ⟨L, hL⟩ := ihI cfg (keptChildren cfg cs rel) pre rel depth hc
          exact ⟨L, by rw [if_neg hg]; exact hL⟩
    · intro cfg items pre rel depth h
      cases items with
      | nil => exact ⟨[], build_items_nil cfg pre rel depth⟩
      | cons item rest =>
        have h2 : sizeOf rest ≤ fu := by simp at h; omega
        obtain ⟨more, hm⟩ := ihI cfg rest pre rel depth h2
        cases item with
        | file n =>
          refine ⟨(pre ++ (if rest.isEmpty then "└── " else "├── ") ++ n) :: ([] ++ more), ?_⟩
          rw [build_items_cons, hm]
          simp [FS.isDir, FS.name]
        | dir n l =>
          have h1 : sizeOf (FS.dir n l) ≤ fu := by simp at h ⊢; omega
          obtain ⟨sub, hs⟩ := ihT cfg n l
            (pre ++ (if rest.isEmpty then "    " else "│   ")) (rel ++ [FS.name (.dir n l)])
            (depth + 1) h1
          refine ⟨(pre ++ (if rest.isEmpty then "└── " else "├── ") ++ (n ++ "/")) ::
            (sub ++ more), ?_⟩
          rw [build_items_cons]
          simp only [FS.isDir, if_pos]
          rw [hs, hm]
          rfl

/-- A sibling-group render never fails: recursion only ever descends into
directories. -/
theorem build_items_ok (cfg : Config) (items : List FS) (pre : String) (rel : List String)
    (depth : Nat) : ∃ L, build_items cfg items pre rel depth = .ok L :=
  (build_ok_bound (sizeOf items)).2 cfg items pre rel depth le_rfl

/-- Traversal of an existing directory never fails, readable or not. -/
theorem build_tree_dir_ok (cfg : Config) (n : String) (l : Option (List FS)) (pre : String)
    (rel : List String) (depth : Nat) :
    ∃ L, build_tree cfg (.dir n l) pre rel depth = .ok L :=
  (build_ok_bound (sizeOf (FS.dir n l))).1 cfg n l pre rel depth le_rfl

theorem depthStop_none {cfg : Config} (h : cfg.max_depth = none) (depth : Nat) :
    depthStop cfg depth = false := by
  simp [depthStop, h]

theorem build_len_bound : ∀ fu : Nat,
    (∀ cfg node pre rel depth L, sizeOf node ≤ fu → cfg.max_depth = none →
      build_tree cfg node pre rel depth = .ok L →
      L.length = visible_count cfg node rel) ∧
    (∀ cfg (items : List FS) pre rel depth L, sizeOf items ≤ fu → cfg.max_depth = none →
      build_items cfg items pre rel depth = .ok L →
      L.length = visible_count_items cfg items rel) := by
  intro fu
  induction fu with
  | zero =>
    constructor
    · intro cfg node pre rel depth L h
      cases node <;> simp at h
    · intro cfg items pre rel depth L h
      cases items <;> simp at h
  | succ fu ih =>
    obtain ⟨ihT, ihI⟩ := ih
    constructor
    · intro cfg node pre rel depth L h hmd hB
      cases node with
      | file n =>
        rw [build_tree_file, depthStop_none hmd] at hB
        simp at hB
      | dir n l =>
        cases l with
        | none =>
          rw [build_tree_dirNone] at hB
          cases hB
          rw [visible_count_dirNone]
          rfl
        | some cs =>
          rw [build_tree_dirSome, depthStop_none hmd] at hB
          simp only [Bool.false_eq_true, if_false] at hB
          have hc : sizeOf (keptChildren cfg cs rel) ≤ fu := by
            have := sizeOf_keptChildren_le cfg cs rel
            simp at h
            omega
          rw [visible_count_dirSome]
          exact ihI cfg _ pre rel depth L hc hmd hB
    · intro cfg items pre rel depth L h hmd hB
      cases items with
      | nil =>
        rw [build_items_nil] at hB
        cases hB
        rw [visible_count_items_nil]
        rfl
      | cons item rest =>
        have h1 : sizeOf item ≤ fu := by simp at h; omega
        have h2 : sizeOf rest ≤ fu := by simp at h; omega
        obtain ⟨more, hm⟩ := build_items_ok cfg rest pre rel depth
        have e2 := ihI cfg rest pre rel depth more h2 hmd hm
        rw [build_items_cons, hm] at hB
        cases item with
        | file n =>
          simp only [FS.isDir, Bool.false_eq_true, if_false, Except.ok.injEq] at hB
          subst hB
          rw [visible_count_items_cons]
          simp only [FS.isDir, Bool.false_eq_true, if_false, List.length_cons,
            List.nil_append]
          omega
        | dir n l =>
          obtain ⟨sub, hs⟩ := build_tree_dir_ok cfg n l
            (pre ++ if rest.isEmpty = true then "    " else "│   ")
            (rel ++ [FS.name (.dir n l)]) (depth + 1)
          have e1 := ihT cfg (.dir n l) _ _ _ sub h1 hmd hs
          rw [show FS.isDir (.dir n l) = true from rfl] at hB
          simp only [eq_self_iff_true, if_true] at hB
          rw [hs] at hB
          simp only [Except.ok.injEq] at hB
          subst hB
          rw [visible_count_items_cons]
          rw [show FS.isDir (.dir n l) = true from rfl]
          simp only [eq_self_iff_true, if_true, List.length_cons, List.length_append]
          omega

theorem keptChildren_max_depth (cfg : Config) (md : Option Int) (cs : List FS)
    (rel : List String) :
    keptChildren { cfg with max_depth := md } cs rel = keptChildren cfg cs rel := rfl

theorem depth_override_bound : ∀ fu : Nat,
    (∀ cfg (md : Option Int) node pre rel depth, sizeOf node ≤ fu →
      (∀ k, depthStop { cfg with max_depth := md } k = depthStop cfg k) →
      build_tree { cfg with max_depth := md } node pre rel depth =
        build_tree cfg node pre rel depth) ∧
    (∀ cfg (md : Option Int) (items : List FS) pre rel depth, sizeOf items ≤ fu →
      (∀ k, depthStop { cfg with max_depth := md } k = depthStop cfg k) →
      build_items { cfg with max_depth := md } items pre rel depth =
        build_items cfg items pre rel depth) := by
  intro fu
  induction fu with
  | zero =>
    constructor
    · intro cfg md node pre rel depth h hg
      cases node <;> simp at h
    · intro cfg md items pre rel depth h hg
      cases items <;> simp at h
  | succ fu ih =>
    obtain ⟨ihT, ihI⟩ := ih
    constructor
    · intro cfg md node pre rel depth h hg
      cases node with
      | file n => rw [build_tree_file, build_tree_file, hg]
      | dir n l =>
        cases l with
        | none => rw [build_tree_dirNone, build_tree_dirNone]
        | some cs =>
          have hc : sizeOf (keptChildren cfg cs rel) ≤ fu := by
            have := sizeOf_keptChildren_le cfg cs rel
            simp at h
            omega
          rw [build_tree_dirSome, build_tree_dirSome, hg, keptChildren_max_depth,
            ihI cfg md (keptChildren cfg cs rel) pre rel depth hc hg]
    · intro cfg md items pre rel depth h hg
      cases items with
      | nil => rw [build_items_nil, build_items_nil]
      | cons item rest =>
        have h1 : sizeOf item ≤ fu := by simp at h; omega
        have h2 : sizeOf rest ≤ fu := by simp at h; omega
        rw [build_items_cons, build_items_cons,
          ihT cfg md item (pre ++ if rest.isEmpty = true then "    " else "│   ")
            (rel ++ [item.name]) (depth + 1) h1 hg,
          ihI cfg md rest pre rel depth h2 hg]

theorem normalizeFS_file (n : String) : normalizeFS (.file n) = .file n := by
  simp only [normalizeFS]

theorem normalizeFS_dirNone (n : String) : normalizeFS (.dir n none) = .dir n (some []) := by
  simp only [normalizeFS]

theorem normalizeFS_dirSome (n : String) (cs : List FS) :
    normalizeFS (.dir n (some cs)) = .dir n (some (cs.map normalizeFS)) := by
  simp only [normalizeFS]
  rw [List.attach_map_coe]

theorem normalizeFS_name (node : FS) : (normalizeFS node).name = node.name := by
  cases node with
  | file n => rw [normalizeFS_file]
  | dir n l => cases l with
    | none => rw [normalizeFS_dirNone]; rfl
    | some cs => rw [normalizeFS_dirSome]; rfl

theorem normalizeFS_isDir (node : FS) : (normalizeFS node).isDir = node.isDir := by
  cases node with
  | file n => rw [normalizeFS_file]
  | dir n l => cases l with
    | none => rw [normalizeFS_dirNone]; rfl
    | some cs => rw [normalizeFS_dirSome]; rfl

theorem should_exclude_shallow (cfg : Config) {a b : FS} (rel : List String)
    (h1 : a.isDir = b.isDir) (h2 : a.name = b.name) :
    should_exclude cfg a rel = should_exclude cfg b rel := by
  simp only [should_exclude, h1, h2]

theorem keyLE_normalize (a b : FS) :
    keyLE (normalizeFS a) (normalizeFS b) ↔ keyLE a b := by
  simp only [keyLE, sortKey1, normalizeFS_isDir, normalizeFS_name]

theorem childSort_map_normalize (cs : List FS) :
    childSort (cs.map normalizeFS) = (childSort cs).map normalizeFS := by
  unfold childSort
  exact (List.map_insertionSort keyLE keyLE normalizeFS cs
    (fun a _ b _ => (keyLE_normalize a b).symm)).symm

theorem keptChildren_map_normalize (cfg : Config) (cs : List FS) (rel : List String) :
    keptChildren cfg (cs.map normalizeFS) rel = (keptChildren cfg cs rel).map normalizeFS := by
  unfold keptChildren
  rw [childSort_map_normalize, List.filter_map]
  congr 1
  apply List.filter_congr
  intro c hc
  simp only [Function.comp_apply, normalizeFS_name]
  rw [should_exclude_shallow cfg (rel ++ [c.name]) (normalizeFS_isDir c) (normalizeFS_name c)]

theorem normalize_render_bound : ∀ fu : Nat,
    (∀ cfg node pre rel depth, sizeOf node ≤ fu →
      build_tree cfg (normalizeFS node) pre rel depth = build_tree cfg node pre rel depth) ∧
    (∀ cfg (items : List FS) pre rel depth, sizeOf items ≤ fu →
      build_items cfg (items.map normalizeFS) pre rel depth =
        build_items cfg items pre rel depth) := by
  intro fu
  induction fu with
  | zero =>
    constructor
    · intro cfg node pre rel depth h
      cases node <;> simp at h
    · intro cfg items pre rel depth h
      cases items <;> simp at h
  | succ fu ih =>
    obtain ⟨ihT, ihI⟩ := ih
    constructor
    · intro cfg node pre rel depth h
      cases node with
      | file n => rw [normalizeFS_file]
      | dir n l =>
        cases l with
        | none =>
          rw [normalizeFS_dirNone, build_tree_dirSome, build_tree_dirNone]
          rw [show keptChildren cfg [] rel = [] from rfl, build_items_nil]
          split <;> rfl
        | some cs =>
          have hc : sizeOf (keptChildren cfg cs rel) ≤ fu := by
            have := sizeOf_keptChildren_le cfg cs rel
            simp at h
            omega
          rw [normalizeFS_dirSome, build_tree_dirSome, build_tree_dirSome,
            keptChildren_map_normalize,
            ihI cfg (keptChildren cfg cs rel) pre rel depth hc]
    · intro cfg items pre rel depth h
      cases items with
      | nil => rw [show (List.map normalizeFS [] : List FS) = [] from rfl]
      | cons item rest =>
        have h1 : sizeOf item ≤ fu := by simp at h; omega
        have h2 : sizeOf rest ≤ fu := by simp at h; omega
        have hemp : (rest.map normalizeFS).isEmpty = rest.isEmpty := by
          cases rest <;> rfl
        simp only [List.map_cons]
        rw [build_items_cons, build_items_cons, hemp, normalizeFS_isDir, normalizeFS_name,
          ihT cfg item (pre ++ if rest.isEmpty = true then "    " else "│   ")
            (rel ++ [item.name]) (depth + 1) h1,
          ihI cfg rest pre rel depth h2]

/-- A directory the program cannot list renders exactly as an empty
directory would, everywhere in the snapshot. -/
theorem build_tree_normalize (cfg : Config) (node : FS) (pre : String) (rel : List String)
    (depth : Nat) :
    build_tree cfg (normalizeFS node) pre rel depth = build_tree cfg node pre rel depth :=
  (normalize_render_bound (sizeOf node)).1 cfg node pre rel depth le_rfl

theorem kept_pairwise_keyLE (cfg : Config) (cs : List FS) (rel : List String) :
    List.Pairwise keyLE (keptChildren cfg cs rel) := by
  have hs : List.Pairwise keyLE (childSort cs) := List.sorted_insertionSort keyLE cs
  exact List.Pairwise.sublist (List.filter_sublist _) hs

theorem keyLE_siblingOrdered {a b : FS} (h : keyLE a b) : siblingOrdered a b := by
  unfold siblingOrdered
  rcases h with h | ⟨he, hs⟩
  · cases ha : a.isDir <;> cases hb : b.isDir <;>
      simp [sortKey1, ha, hb] at h ⊢
  · cases ha : a.isDir <;> cases hb : b.isDir <;>
      simp [sortKey1, ha, hb] at he ⊢ <;> exact hs

theorem should_exclude_eq_spec (cfg : Config) (e : FS) (rel : List String) :
    should_exclude cfg e rel = excludedSpec cfg e rel := by
  unfold should_exclude excludedSpec specRuleList
  cases e with
  | dir n l =>
    simp only [FS.isDir, FS.name]
    by_cases h1 : should_exclude_by_path cfg rel = true <;>
      simp [h1, firstDecision]
  | file n =>
    simp only [FS.isDir, FS.name]
    by_cases h1 : should_exclude_by_path cfg rel = true <;>
      by_cases h2 : n ∈ cfg.exclude_files <;>
        by_cases h3 : (cfg.exclude_patterns.any fun pat => pyEndsWith n pat) = true <;>
          by_cases h4 : optListTruthy cfg.include_extensions = true <;>
            simp [h1, h2, h3, h4, firstDecision]

/-!
Claim theorems.
-/

/-- C1 (amended).  Depth law: with maximum depth set to a nonzero `d`, a
traversal call at recursion depth at least `d` emits nothing, so no
entry deeper than `d` levels below the root is rendered; with maximum
depth unset, the number of emitted lines equals the number of
non-excluded entries reachable at any depth, so every such entry
appears.  (The original claim's parenthetical that `d = 0` yields only
the header line is false: the code treats `0` as "no limit";
see the counterexample `depth_zero_not_header_only`.) -/
theorem depth_law_amended (cfg1 : Config) (d : Int) (node1 : FS) (pre1 : String)
    (rel1 : List String) (depth1 : Nat) (cfg2 : Config) (node2 : FS) (pre2 : String)
    (rel2 : List String) (depth2 : Nat) (L : List String)
    (hmd1 : cfg1.max_depth = some d) (hd : d ≠ 0) (hge : d ≤ (depth1 : Int))
    (hmd2 : cfg2.max_depth = none)
    (hrun : build_tree cfg2 node2 pre2 rel2 depth2 = .ok L) :
    build_tree cfg1 node1 pre1 rel1 depth1 = .ok [] ∧
      L.length = visible_count cfg2 node2 rel2 := by
  constructor
  · have hg : depthStop cfg1 depth1 = true := by
      simp [depthStop, hmd1, hd, hge]
    cases node1 with
    | file n => rw [build_tree_file, if_pos hg]
    | dir n l =>
      cases l with
      | none => exact build_tree_dirNone cfg1 n pre1 rel1 depth1
      | some cs => rw [build_tree_dirSome, if_pos hg]
  · exact (build_len_bound (sizeOf node2)).1 cfg2 node2 pre2 rel2 depth2 L le_rfl hmd2 hrun

/-- C1 witness: a concrete depth-limited run that emits nothing past the
limit, and a concrete unlimited run whose line count matches the visible
entry count. -/
theorem depth_law_amended_witness :
    build_tree { DEFAULT_CONFIG with max_depth := some 1 } (.file "x") "" [] 1 = .ok [] ∧
      (["└── a.txt"] : List String).length =
        visible_count DEFAULT_CONFIG (.dir "r" (some [.file "a.txt"])) [] :=
  depth_law_amended { DEFAULT_CONFIG with max_depth := some 1 } 1 (.file "x") "" [] 1
    DEFAULT_CONFIG (.dir "r" (some [.file "a.txt"])) "" [] 0 ["└── a.txt"]
    rfl (by decide) (by decide) rfl (by rw [build_tree_eval]; rfl)

/-- C1 counterexample: the default configuration with maximum depth `0`
renders the full tree (here two lines), not only the header line, because
`if self.max_depth and depth >= self.max_depth` treats `0` as falsy. -/
theorem depth_zero_not_header_only :
    ({ DEFAULT_CONFIG with max_depth := some 0 } : Config).max_depth = some 0 ∧
      generate_tree_lines { DEFAULT_CONFIG with max_depth := some 0 }
        (some (.dir "r" (some [.file "a.txt"]))) = .ok ["r/", "└── a.txt"] ∧
      (["r/", "└── a.txt"] : List String) ≠ ["r/"] := by
  refine ⟨rfl, ?_, by decide⟩
  rw [generate_tree_lines_eval]
  rfl

/-- C2.  The exclusion decision equals the spec's rule list evaluated in
order with first-match-wins: (1) path substring for files and
directories, (2) directory bare name (definitive for directories),
(3) file exact name, (4) raw string suffix, (5) extension allow-list when
non-empty. -/
theorem exclusion_rule_order (cfg : Config) (e : FS) (rel : List String) :
    should_exclude cfg e rel = excludedSpec cfg e rel :=
  should_exclude_eq_spec cfg e rel

/-- C3.  For an existing root directory the core never raises during
traversal: `build_tree` on any directory returns `ok` (listing failures
are recovered, filtering and sorting are total), and `generate_tree`
returns the joined text with no error. -/
theorem traversal_total_no_error (cfg : Config) (n : String) (l : Option (List FS))
    (pre : String) (rel : List String) (depth : Nat) :
    (∃ L, build_tree cfg (.dir n l) pre rel depth = .ok L) ∧
      (∃ s, generate_tree cfg (some (.dir n l)) = .ok s) := by
  constructor
  · exact build_tree_dir_ok cfg n l pre rel depth
  · obtain ⟨L0, h0⟩ := build_tree_dir_ok cfg n l "" [] 0
    refine ⟨String.intercalate "\n" ((n ++ "/") :: L0), ?_⟩
    simp only [generate_tree, generate_tree_lines]
    rw [h0]
    rfl

/-- C4.  Whenever the excluded-directory-name set contains
`node_modules` (as the default configuration does), a directory of that
name is excluded wherever it occurs and never survives into the sibling
group the renderer iterates over — so it is never descended into and no
descendant is rendered — irrespective of every other configuration field,
including the extension allow-list. -/
theorem node_modules_pruned (cfg : Config) (l : Option (List FS)) (rel rel2 : List String)
    (cs : List FS) (h : "node_modules" ∈ cfg.exclude_dirs) :
    should_exclude cfg (.dir "node_modules" l) rel = true ∧
      FS.dir "node_modules" l ∉ keptChildren cfg cs rel2 := by
  have key : ∀ r, should_exclude cfg (.dir "node_modules" l) r = true := by
    intro r
    unfold should_exclude
    by_cases hp : should_exclude_by_path cfg r = true
    · rw [if_pos hp]
    · rw [if_neg hp]
      simp [FS.isDir, FS.name, h]
  refine ⟨key rel, ?_⟩
  intro hmem
  unfold keptChildren at hmem
  have hf := List.of_mem_filter hmem
  rw [key] at hf
  simp at hf

/-- C4 witness at the default configuration. -/
theorem node_modules_pruned_witness :
    should_exclude DEFAULT_CONFIG (.dir "node_modules" (some [])) ["node_modules"] = true ∧
      FS.dir "node_modules" (some []) ∉
        keptChildren DEFAULT_CONFIG [.dir "node_modules" (some []), .file "a.txt"] [] :=
  node_modules_pruned DEFAULT_CONFIG (some []) ["node_modules"] []
    [.dir "node_modules" (some []), .file "a.txt"] (by decide)

/-- C5.  Ordering law: every sibling group the renderer emits is
pairwise ordered with all directories before all files and
case-insensitive ascending names within each kind. -/
theorem sibling_order_law (cfg : Config) (cs : List FS) (rel : List String) :
    List.Pairwise siblingOrdered (keptChildren cfg cs rel) :=
  (kept_pairwise_keyLE cfg cs rel).imp keyLE_siblingOrdered

/-- C6.  A missing root raises the not-found error before any output and
nothing else is returned; an existing root never produces that error,
at start or mid-traversal. -/
theorem root_not_found_behavior (cfg : Config) (fs : FS) :
    generate_tree_lines cfg none = .error .notFound ∧
      generate_tree cfg none = .error .notFound ∧
      isNotFoundErr (generate_tree_lines cfg (some fs)) = false := by
  refine ⟨rfl, rfl, ?_⟩
  cases fs with
  | dir n l =>
    obtain ⟨L, hL⟩ := build_tree_dir_ok cfg n l "" [] 0
    simp only [generate_tree_lines]
    rw [hL]
    rfl
  | file n =>
    simp only [generate_tree_lines]
    rw [build_tree_file]
    by_cases hg : depthStop cfg 0 = true
    · rw [if_pos hg]
      rfl
    · rw [if_neg hg]
      rfl

/-- C7.  A directory whose listing raises a permission error is treated
as childless: it renders no lines of its own subtree and no error,
exactly like an empty directory (`normalizeFS` replaces every unreadable
directory by an empty one and the output is unchanged), while its own
line still appears and the rest of the sibling group renders on. -/
theorem permission_denied_recovered (cfg : Config) (n : String) (node : FS) (rest : List FS)
    (pre : String) (rel : List String) (depth : Nat) :
    build_tree cfg (.dir n none) pre rel depth = .ok [] ∧
      build_tree cfg (.dir n (some [])) pre rel depth = .ok [] ∧
      build_tree cfg (normalizeFS node) pre rel depth = build_tree cfg node pre rel depth ∧
      (∃ more, build_items cfg rest pre rel depth = .ok more ∧
        build_items cfg (.dir n none :: rest) pre rel depth =
          .ok ((pre ++ (if rest.isEmpty then "└── " else "├── ") ++ (n ++ "/")) :: more)) := by
  refine ⟨build_tree_dirNone cfg n pre rel depth, ?_,
    build_tree_normalize cfg node pre rel depth, ?_⟩
  · rw [build_tree_dirSome, show keptChildren cfg [] rel = [] from rfl, build_items_nil]
    split <;> rfl
  · obtain ⟨more, hm⟩ := build_items_ok cfg rest pre rel depth
    refine ⟨more, hm, ?_⟩
    rw [build_items_cons, hm]
    simp only [FS.isDir, FS.name, eq_self_iff_true, if_true]
    rw [build_tree_dirNone]
    simp

/-- C8.  Determinism and pre-order: the renderer is a pure function of
the configuration and snapshot, so identical invocations yield identical
text; and in a sibling group a directory's own line is emitted first,
immediately followed by all lines of its subtree, then the remaining
siblings' lines. -/
theorem deterministic_preorder (cfg : Config) (root : Option FS) (n : String)
    (l : Option (List FS)) (rest : List FS) (pre : String) (rel : List String) (depth : Nat) :
    generate_tree cfg root = generate_tree cfg root ∧
      (∃ sub more,
        build_tree cfg (.dir n l) (pre ++ (if rest.isEmpty then "    " else "│   "))
            (rel ++ [n]) (depth + 1) = .ok sub ∧
        build_items cfg rest pre rel depth = .ok more ∧
        build_items cfg (.dir n l :: rest) pre rel depth =
          .ok ((pre ++ (if rest.isEmpty then "└── " else "├── ") ++ (n ++ "/")) ::
            (sub ++ more))) := by
  refine ⟨rfl, ?_⟩
  obtain ⟨sub, hs⟩ := build_tree_dir_ok cfg n l
    (pre ++ (if rest.isEmpty then "    " else "│   ")) (rel ++ [n]) (depth + 1)
  obtain ⟨more, hm⟩ := build_items_ok cfg rest pre rel depth
  refine ⟨sub, more, hs, hm, ?_⟩
  rw [build_items_cons, hm]
  simp only [FS.isDir, FS.name, eq_self_iff_true, if_true]
  rw [hs]

/-- C9.  A maximum depth of `0` is the same as no maximum depth (Python
truthiness makes `0` falsy in the depth guard), and the CLI's
`--max-depth 0` override is dropped, leaving the unlimited default. -/
theorem depth_zero_unlimited (cfg : Config) (node : FS) (pre : String) (rel : List String)
    (depth : Nat) :
    build_tree { cfg with max_depth := some 0 } node pre rel depth =
      build_tree { cfg with max_depth := none } node pre rel depth ∧
      mainMergedMaxDepth (some 0) = none := by
  constructor
  · exact (depth_override_bound (sizeOf node)).1 { cfg with max_depth := none } (some 0)
      node pre rel depth le_rfl (fun k => rfl)
  · rfl

/-- C10.  Permission-error recovery applies to the root itself: a root
directory whose own listing fails renders exactly the header line and no
error. -/
theorem root_permission_denied_header_only (cfg : Config) (n : String) :
    generate_tree_lines cfg (some (.dir n none)) = .ok [n ++ "/"] ∧
      generate_tree cfg (some (.dir n none)) = .ok (n ++ "/") := by
  have h := build_tree_dirNone cfg n "" [] 0
  constructor
  · simp only [generate_tree_lines]
    rw [h]
    rfl
  · simp only [generate_tree, generate_tree_lines]
    rw [h]
    rfl

end TreeGen
